import Mathlib

/-!
Verification of the `F32Wrapper` component of Floaty-Hash (`src/main.rs`).

A single-precision float is represented by its 32-bit IEEE-754 pattern, carried as a
natural number; all field extractions read only bits 0..31.  Exact rational semantics
(`toQ`) together with round-to-nearest-even (`roundF32`) give the IEEE-754 behaviour of
the `f32` arithmetic the source uses (`-`, `+`, `*`, `/`, `abs`, `<=`), and the decimal
literal `0.00001` is rounded to `f32` the way the Rust compiler rounds it.

The `Rat` operations of the library are re-marked semireducible so that concrete
computations can be settled by `decide`.
-/

attribute [local semireducible] Rat.add Rat.mul Rat.inv Rat.sub Rat.ofScientific

set_option maxRecDepth 100000

set_option maxHeartbeats 1000000

/-- Struct `F32Wrapper { inner: f32 }` from src/main.rs.  The wrapped `f32` is
represented by its IEEE-754 bit pattern, held in `inner` as a natural number. -/
structure F32Wrapper where
  inner : Nat
deriving DecidableEq

/-- Constant `F32_BITS` from src/main.rs. -/
def F32_BITS : Nat := 32

/-- Constant `F32_EXPONENT_BITS` from src/main.rs. -/
def F32_EXPONENT_BITS : Nat := 8

/-- Constant `F32_EXPONENT_BIAS` from src/main.rs. -/
def F32_EXPONENT_BIAS : Nat := 127

/-- Constant `F32_MANTISA_BITS` from src/main.rs (sic). -/
def F32_MANTISA_BITS : Nat := 23

/-- Method `to_bits`: the 32-bit IEEE-754 pattern of the wrapped value, as `u32`. -/
def F32Wrapper.to_bits (x : F32Wrapper) : Nat := x.inner % 2 ^ 32

/-- Biased exponent field of the pattern (bits 23..30). -/
def expField (x : F32Wrapper) : Nat := x.to_bits / 2 ^ 23 % 2 ^ 8

/-- Mantissa field of the pattern (bits 0..22). -/
def mantField (x : F32Wrapper) : Nat := x.to_bits % 2 ^ 23

/-- The pattern denotes an IEEE-754 NaN. -/
def isNanF32 (x : F32Wrapper) : Bool := expField x == 255 && mantField x != 0

/-- The pattern denotes an IEEE-754 infinity. -/
def isInfF32 (x : F32Wrapper) : Bool := expField x == 255 && mantField x == 0

/-- The pattern denotes an IEEE-754 zero (of either sign). -/
def isZeroF32 (x : F32Wrapper) : Bool := expField x == 0 && mantField x == 0

/-- Method `sign_bit` from src/main.rs: `(self.to_bits() & (1 << (F32_BITS - 1))) != 0`. -/
def F32Wrapper.sign_bit (x : F32Wrapper) : Bool :=
  (x.to_bits &&& (1 <<< (F32_BITS - 1))) != 0

/-- Exact rational value denoted by a finite f32 bit pattern (0 for NaN and the
infinities; every use is guarded by a finiteness test). -/
def toQ (x : F32Wrapper) : ℚ :=
  let s : ℚ := if x.sign_bit then -1 else 1
  if expField x == 0 then s * mantField x / 2 ^ 149
  else if expField x == 255 then 0
  else s * ((2 ^ 23 + mantField x : Nat) : ℚ) * 2 ^ expField x / 2 ^ 150

/-- Round a rational to the nearest integer, ties to even. -/
def rneInt (q : ℚ) : Int :=
  let f := ⌊q⌋
  if q - f < 1 / 2 then f
  else if (1 : ℚ) / 2 < q - f then f + 1
  else if f % 2 = 0 then f else f + 1

/-- Fuel-driven binary logarithm: `log2Fuel fuel n` is the floor of log2 of `n`
(for `n ≥ 1`) whenever `fuel ≥ n`.  Structural recursion so the kernel can run it. -/
def log2Fuel : Nat → Nat → Nat
  | 0, _ => 0
  | fuel + 1, n => if n ≤ 1 then 0 else log2Fuel fuel (n / 2) + 1

/-- Floor of log2 for a positive natural number. -/
def natLog2 (n : Nat) : Nat := log2Fuel n n

/-- Floor of the base-2 logarithm of a positive rational: the estimate from the
numerator and denominator logs is off by at most one and is corrected by comparison. -/
def qLog2Floor (q : ℚ) : Int :=
  let e0 : Int := (natLog2 q.num.natAbs : Int) - (natLog2 q.den : Int)
  if (2 : ℚ) ^ e0 ≤ q then e0 else e0 - 1

/-- Bit pattern of the binary32 nearest to a positive rational (ties to even):
quantum 2^-149 below the normal range, quantum 2^(e-23) in the binade of exponent `e`,
and the +infinity pattern when the rounded value exceeds the largest finite binary32. -/
def roundPosBits (q : ℚ) : Nat :=
  let e := qLog2Floor q
  if e ≤ -127 then
    (rneInt (q * 2 ^ 149)).toNat
  else
    let n := (rneInt (q * (2 : ℚ) ^ (23 - e))).toNat
    let m := if n = 2 ^ 24 then 2 ^ 23 else n
    let e2 : Int := if n = 2 ^ 24 then e + 1 else e
    if 127 < e2 then 255 * 2 ^ 23
    else (e2 + 127).toNat * 2 ^ 23 + (m - 2 ^ 23)

/-- IEEE-754 round to nearest, ties to even, from an exact rational to binary32. -/
def roundF32 (q : ℚ) : F32Wrapper :=
  if q = 0 then ⟨0⟩
  else if 0 < q then ⟨roundPosBits q⟩
  else ⟨2 ^ 31 + roundPosBits (-q)⟩

/-- A quiet-NaN pattern (the claims only ever test NaN-ness, never the payload). -/
def nanF32 : F32Wrapper := ⟨2 ^ 31 - 2 ^ 22⟩

/-- The infinity pattern with the given sign bit. -/
def infF32 (sign : Bool) : F32Wrapper := ⟨(if sign then 2 ^ 31 else 0) + 255 * 2 ^ 23⟩

/-- The zero pattern with the given sign bit. -/
def zeroF32 (sign : Bool) : F32Wrapper := ⟨if sign then 2 ^ 31 else 0⟩

/-- IEEE-754 binary32 subtraction, round to nearest even: NaN and infinity cases per
the standard, the sign-of-zero rule for zero minus zero, and otherwise the correctly
rounded exact difference. -/
def f32Sub (a b : F32Wrapper) : F32Wrapper :=
  if isNanF32 a || isNanF32 b then nanF32
  else if isInfF32 a && isInfF32 b then
    (if a.sign_bit == b.sign_bit then nanF32 else infF32 a.sign_bit)
  else if isInfF32 a then infF32 a.sign_bit
  else if isInfF32 b then infF32 (!b.sign_bit)
  else if isZeroF32 a && isZeroF32 b then zeroF32 (a.sign_bit && !b.sign_bit)
  else roundF32 (toQ a - toQ b)

/-- IEEE-754 binary32 addition, round to nearest even. -/
def f32Add (a b : F32Wrapper) : F32Wrapper :=
  if isNanF32 a || isNanF32 b then nanF32
  else if isInfF32 a && isInfF32 b then
    (if a.sign_bit == b.sign_bit then infF32 a.sign_bit else nanF32)
  else if isInfF32 a then infF32 a.sign_bit
  else if isInfF32 b then infF32 b.sign_bit
  else if isZeroF32 a && isZeroF32 b then zeroF32 (a.sign_bit && b.sign_bit)
  else roundF32 (toQ a + toQ b)

/-- IEEE-754 binary32 multiplication, round to nearest even. -/
def f32Mul (a b : F32Wrapper) : F32Wrapper :=
  if isNanF32 a || isNanF32 b then nanF32
  else if (isInfF32 a && isZeroF32 b) || (isZeroF32 a && isInfF32 b) then nanF32
  else if isInfF32 a || isInfF32 b then infF32 (a.sign_bit != b.sign_bit)
  else if isZeroF32 a || isZeroF32 b then zeroF32 (a.sign_bit != b.sign_bit)
  else roundF32 (toQ a * toQ b)

/-- IEEE-754 binary32 division, round to nearest even. -/
def f32Div (a b : F32Wrapper) : F32Wrapper :=
  if isNanF32 a || isNanF32 b then nanF32
  else if isInfF32 a && isInfF32 b then nanF32
  else if isZeroF32 a && isZeroF32 b then nanF32
  else if isInfF32 a then infF32 (a.sign_bit != b.sign_bit)
  else if isZeroF32 b then infF32 (a.sign_bit != b.sign_bit)
  else if isInfF32 b then zeroF32 (a.sign_bit != b.sign_bit)
  else if isZeroF32 a then zeroF32 (a.sign_bit != b.sign_bit)
  else roundF32 (toQ a / toQ b)

/-- Rust `f32::abs`: clear the sign bit (also on NaN). -/
def f32Abs (x : F32Wrapper) : F32Wrapper := ⟨x.to_bits &&& (2 ^ 31 - 1)⟩

/-- IEEE-754 `<=` on binary32: false when an operand is NaN, the usual order on the
extended reals otherwise (so both zeros compare equal). -/
def f32Le (a b : F32Wrapper) : Bool :=
  if isNanF32 a || isNanF32 b then false
  else if isInfF32 a then (a.sign_bit || (isInfF32 b && !b.sign_bit))
  else if isInfF32 b then !b.sign_bit
  else decide (toQ a ≤ toQ b)

/-- Constant `F32_ERROR_TOLERANCE: f32 = 0.00001` from src/main.rs: the decimal
literal rounded to the nearest binary32, exactly as the Rust compiler rounds it. -/
def F32_ERROR_TOLERANCE : F32Wrapper := roundF32 (1 / 100000)

/-- Method `new` from src/main.rs: wrap a value (given here by its bit pattern). -/
def F32Wrapper.new (val : Nat) : F32Wrapper := ⟨val⟩

/-- Method `exponent_bits` from src/main.rs: the 8 bits after the sign bit, most
significant first, read with a selector that starts at `1 << (F32_BITS - 1 - 1)`
and shifts right once per iteration. -/
def F32Wrapper.exponent_bits (x : F32Wrapper) : List Bool :=
  (List.range F32_EXPONENT_BITS).map
    (fun i => (x.to_bits &&& (1 <<< (F32_BITS - 1 - 1 - i))) != 0)

/-- Method `mantissa_bits` from src/main.rs: the trailing 23 bits, most significant
first, read with a selector that starts at `1 << (F32_BITS - 1 - 1 - F32_EXPONENT_BITS)`
and shifts right once per iteration. -/
def F32Wrapper.mantissa_bits (x : F32Wrapper) : List Bool :=
  (List.range F32_MANTISA_BITS).map
    (fun i => (x.to_bits &&& (1 <<< (F32_BITS - 1 - 1 - F32_EXPONENT_BITS - i))) != 0)

/-- The `PartialEq` impl from src/main.rs:
`(self.inner - other.inner).abs() <= F32_ERROR_TOLERANCE`, in f32 arithmetic. -/
def F32Wrapper.eq (a b : F32Wrapper) : Bool :=
  f32Le (f32Abs (f32Sub a b)) F32_ERROR_TOLERANCE

/-- Helper `bit_to_char` of `to_bin_str` from src/main.rs. -/
def bit_to_char (bit : Bool) : Char := if bit then '1' else '0'

/-- Method `to_bin_str` from src/main.rs: `"0b"`, then the sign bit, the 8 exponent
bits and the 23 mantissa bits, one character each. -/
def F32Wrapper.to_bin_str (x : F32Wrapper) : String :=
  String.mk (['0', 'b'] ++ [bit_to_char x.sign_bit]
    ++ x.exponent_bits.map bit_to_char ++ x.mantissa_bits.map bit_to_char)

/-- Rust constant `f32::DIGITS` (approximate number of significant decimal digits of
an f32), the bound of the exponent-decoding loop in `Hash for F32Wrapper`. -/
def f32DIGITS : Nat := 6

/-- The `raw_exp` computed inside `Hash for F32Wrapper`: for `i` in `0..f32::DIGITS`,
add `2^i` when `exponent_bits[i]` (a most-significant-first sequence) is set, then
subtract `F32_EXPONENT_BIAS`.  All `i32` arithmetic here is overflow-free. -/
def raw_exp (x : F32Wrapper) : Int :=
  (List.range f32DIGITS).foldl
    (fun acc i => if x.exponent_bits.getD i false then acc + 2 ^ i else acc) 0
  - (F32_EXPONENT_BIAS : Int)

/-- The `multiplicative_exponent` of `Hash for F32Wrapper`, `2.0f64.powi(raw_exp)`:
exact in f64 for every reachable `raw_exp` (these lie in -127..-64, and repeated
halving in the mantissa walk keeps the value a power of two no smaller than 2^-150,
all exactly representable in f64), so it is modelled by the exact rational. -/
def multiplicative_exponent (x : F32Wrapper) : ℚ := (2 : ℚ) ^ raw_exp x

/-- The mantissa walk of `Hash for F32Wrapper`: a derived bit is set iff the source
bit is set and the current scale is still at least the tolerance; the scale is halved
after every position.  The f64 comparison `scale >= tol` is exact (see
`multiplicative_exponent`), so it is the rational comparison. -/
def finalMantissaGo (tol : ℚ) : List Bool → ℚ → List Bool
  | [], _ => []
  | bit :: rest, scale => (bit && decide (tol ≤ scale)) :: finalMantissaGo tol rest (scale / 2)

/-- The `final_mantissa` array computed by `Hash for F32Wrapper`. -/
def final_mantissa (x : F32Wrapper) : List Bool :=
  finalMantissaGo (toQ F32_ERROR_TOLERANCE) x.mantissa_bits (multiplicative_exponent x)

/-- The data fed to the `Hasher` by `impl Hash for F32Wrapper`, in order: the sign bit
(skipped exactly when `self.inner != 0.0` is false, i.e. on either zero), the 8
exponent bits, and the 23-entry `final_mantissa`.  A `Hasher` is a deterministic
function of the fed data, so equal `hashData` means equal hash codes. -/
def hashData (x : F32Wrapper) : Option Bool × List Bool × List Bool :=
  ((if isZeroF32 x then none else some x.sign_bit), x.exponent_bits, final_mantissa x)

/-- Hash-set insertion under the equals/hash contract: a new element is dropped
exactly when an existing element has the same hash data and compares equal. -/
def hsInsert (s : List F32Wrapper) (x : F32Wrapper) : List F32Wrapper :=
  if s.any (fun y => decide (hashData y = hashData x) && F32Wrapper.eq y x) then s
  else x :: s

/-- The index-bound side conditions of the three indexed loops in
`Hash for F32Wrapper`: `exponent_bits[i]` for `i in 0..f32::DIGITS`, and
`mantissa_bits[i]`, `final_mantissa[i]` for `i in 0..F32_MANTISA_BITS`.
The Rust code panics iff one of these indices is out of bounds. -/
def hashOutOfBounds (x : F32Wrapper) : Bool :=
  (List.range f32DIGITS).any (fun i => decide (x.exponent_bits.length ≤ i))
  || (List.range F32_MANTISA_BITS).any (fun i => decide (x.mantissa_bits.length ≤ i))
  || (List.range F32_MANTISA_BITS).any (fun i => decide ((final_mantissa x).length ≤ i))

/-- The spec's reading of step 3 of the hash derivation: the exponent bit sequence
(most significant first) interpreted in the standard 8-bit unsigned encoding. -/
def specExponentValue (x : F32Wrapper) : Nat :=
  x.exponent_bits.foldl (fun acc bit => 2 * acc + (if bit then 1 else 0)) 0

/-- Recombine a sign bit and the exponent and mantissa bit sequences, in order and
most significant bit first, into a 32-bit pattern. -/
def recombineBits (sign : Bool) (e m : List Bool) : Nat :=
  ((sign :: e) ++ m).foldl (fun acc bit => 2 * acc + (if bit then 1 else 0)) 0

theorem to_bits_lt (x : F32Wrapper) : x.to_bits < 2 ^ 32 :=
  Nat.mod_lt _ (by norm_num)

theorem abs_to_bits (x : F32Wrapper) : (f32Abs x).to_bits = x.to_bits % 2 ^ 31 := by
  have h : (2 : Nat) ^ 31 - 1 = 2 ^ 31 - 1 := rfl
  simp only [f32Abs, F32Wrapper.to_bits]
  rw [Nat.and_pow_two_sub_one_eq_mod]
  omega

theorem expField_abs (x : F32Wrapper) : expField (f32Abs x) = expField x := by
  have h := to_bits_lt x
  simp only [expField, abs_to_bits]
  omega

theorem mantField_abs (x : F32Wrapper) : mantField (f32Abs x) = mantField x := by
  have h := to_bits_lt x
  simp only [mantField, abs_to_bits]
  omega

theorem sign_bit_abs (x : F32Wrapper) : (f32Abs x).sign_bit = false := by
  have h : x.to_bits % 2 ^ 31 < 2 ^ 31 := Nat.mod_lt _ (by norm_num)
  simp only [F32Wrapper.sign_bit, abs_to_bits, F32_BITS]
  rw [show (32 - 1 : Nat) = 31 from rfl, Nat.one_shiftLeft, Nat.and_two_pow,
    Nat.testBit_lt_two_pow h]
  simp

theorem isNan_abs (x : F32Wrapper) : isNanF32 (f32Abs x) = isNanF32 x := by
  simp [isNanF32, expField_abs, mantField_abs]

theorem isInf_abs (x : F32Wrapper) : isInfF32 (f32Abs x) = isInfF32 x := by
  simp [isInfF32, expField_abs, mantField_abs]

theorem toQ_abs (x : F32Wrapper) : toQ (f32Abs x) = |toQ x| := by
  have h1 : (0 : ℚ) ≤ (mantField x : ℚ) / 2 ^ 149 := by positivity
  have h2 : (0 : ℚ) ≤ ((2 ^ 23 + mantField x : Nat) : ℚ) * 2 ^ expField x / 2 ^ 150 := by
    positivity
  simp only [toQ, expField_abs, mantField_abs, sign_bit_abs, Bool.false_eq_true,
    if_false]
  by_cases h0 : expField x == 0
  · simp only [h0, if_true]
    cases hs : x.sign_bit
    · rw [if_neg (by simp), one_mul]
      exact (abs_of_nonneg h1).symm
    · rw [if_pos rfl, one_mul, neg_one_mul, neg_div, abs_neg, abs_of_nonneg h1]
  · simp only [h0, Bool.false_eq_true, if_false]
    by_cases h255 : expField x == 255
    · simp [h255]
    · simp only [h255, Bool.false_eq_true, if_false]
      cases hs : x.sign_bit
      · rw [if_neg (by simp), one_mul]
        exact (abs_of_nonneg h2).symm
      · rw [if_pos rfl, one_mul, neg_one_mul, neg_mul, neg_div, abs_neg, abs_of_nonneg h2]

theorem and_shift_bit (t k : Nat) : ((t &&& (1 <<< k)) != 0) = t.testBit k := by
  rw [Nat.one_shiftLeft, Nat.and_two_pow]
  cases h : t.testBit k <;> simp

theorem testBit_val (t k : Nat) :
    (if t.testBit k then (1 : Nat) else 0) = t / 2 ^ k % 2 := by
  rw [Nat.testBit_to_div_mod]
  rcases Nat.mod_two_eq_zero_or_one (t / 2 ^ k) with h | h <;> simp [h]

theorem sign_bit_eq (x : F32Wrapper) : x.sign_bit = x.to_bits.testBit 31 := by
  simp only [F32Wrapper.sign_bit, F32_BITS]
  exact and_shift_bit x.to_bits 31

theorem exponent_bits_eq (x : F32Wrapper) :
    x.exponent_bits = [x.to_bits.testBit 30, x.to_bits.testBit 29, x.to_bits.testBit 28,
      x.to_bits.testBit 27, x.to_bits.testBit 26, x.to_bits.testBit 25,
      x.to_bits.testBit 24, x.to_bits.testBit 23] := by
  rw [F32Wrapper.exponent_bits, F32_EXPONENT_BITS,
    show List.range 8 = [0, 1, 2, 3, 4, 5, 6, 7] from rfl]
  simp [and_shift_bit, F32_BITS]

theorem mantissa_bits_eq (x : F32Wrapper) :
    x.mantissa_bits = [x.to_bits.testBit 22, x.to_bits.testBit 21, x.to_bits.testBit 20,
      x.to_bits.testBit 19, x.to_bits.testBit 18, x.to_bits.testBit 17,
      x.to_bits.testBit 16, x.to_bits.testBit 15, x.to_bits.testBit 14,
      x.to_bits.testBit 13, x.to_bits.testBit 12, x.to_bits.testBit 11,
      x.to_bits.testBit 10, x.to_bits.testBit 9, x.to_bits.testBit 8,
      x.to_bits.testBit 7, x.to_bits.testBit 6, x.to_bits.testBit 5,
      x.to_bits.testBit 4, x.to_bits.testBit 3, x.to_bits.testBit 2,
      x.to_bits.testBit 1, x.to_bits.testBit 0] := by
  rw [F32Wrapper.mantissa_bits, F32_MANTISA_BITS, show List.range 23 =
    [0, 1, 2, 3, 4, 5, 6, 7, 8, 9, 10, 11, 12, 13, 14, 15, 16, 17, 18, 19, 20, 21, 22]
    from rfl]
  simp [and_shift_bit, F32_BITS, F32_EXPONENT_BITS]

theorem exponent_bits_length (x : F32Wrapper) : x.exponent_bits.length = 8 := by
  simp [F32Wrapper.exponent_bits, F32_EXPONENT_BITS]

theorem mantissa_bits_length (x : F32Wrapper) : x.mantissa_bits.length = 23 := by
  simp [F32Wrapper.mantissa_bits, F32_MANTISA_BITS]

theorem finalMantissaGo_length (tol : ℚ) (l : List Bool) (s : ℚ) :
    (finalMantissaGo tol l s).length = l.length := by
  induction l generalizing s with
  | nil => rfl
  | cons b r ih => simp [finalMantissaGo, ih]

theorem final_mantissa_length (x : F32Wrapper) : (final_mantissa x).length = 23 := by
  rw [final_mantissa, finalMantissaGo_length, mantissa_bits_length]

theorem finalMantissaGo_all_false (tol : ℚ) (l : List Bool) (s : ℚ)
    (h0 : 0 ≤ s) (h1 : s < tol) :
    finalMantissaGo tol l s = List.replicate l.length false := by
  induction l generalizing s with
  | nil => rfl
  | cons b r ih =>
    have hd : decide (tol ≤ s) = false := by simp [not_le.mpr h1]
    simp only [finalMantissaGo, hd, Bool.and_false, List.length_cons, List.replicate_succ]
    exact congrArg _ (ih (s / 2) (div_nonneg h0 (by norm_num))
      (lt_of_le_of_lt (half_le_self h0) h1))

theorem tolQ_value : toQ F32_ERROR_TOLERANCE = 10995116 / 1099511627776 := by decide

/-- C5: `sign_bit()`, the 8 `exponent_bits()` and the 23 `mantissa_bits()` partition the
32-bit IEEE-754 pattern exactly (1 + 8 + 23 = 32, no bit read twice or skipped):
recombining the sign bit, exponent bits and mantissa bits in order, most significant
first, reconstructs the exact original bit pattern, for every value. -/
theorem foldl_bit_acc (l : List Bool) (a : Nat) :
    l.foldl (fun acc bit => 2 * acc + (if bit then 1 else 0)) a
      = a * 2 ^ l.length
        + l.foldl (fun acc bit => 2 * acc + (if bit then 1 else 0)) 0 := by
  induction l generalizing a with
  | nil => simp
  | cons b r ih =>
    rw [List.foldl_cons, List.foldl_cons, ih (2 * a + (if b then 1 else 0)),
      ih (2 * 0 + (if b then 1 else 0))]
    simp only [List.length_cons]
    ring

theorem bits_foldl (w : Nat) (t : Nat) :
    ((List.range w).map (fun i => t.testBit (w - 1 - i))).foldl
      (fun acc bit => 2 * acc + (if bit then 1 else 0)) 0 = t % 2 ^ w := by
  induction w with
  | zero => simp [Nat.mod_one]
  | succ w ih =>
    rw [List.range_succ_eq_map]
    simp only [List.map_cons, List.map_map]
    have hf : ((fun i => t.testBit (w + 1 - 1 - i)) ∘ Nat.succ)
        = (fun i => t.testBit (w - 1 - i)) := by
      funext i
      have harg : w - (i + 1) = w - 1 - i := by omega
      simp [harg]
    rw [hf, List.foldl_cons, foldl_bit_acc, ih]
    simp only [List.length_map, List.length_range, Nat.add_sub_cancel, Nat.sub_zero,
      Nat.zero_mul, Nat.zero_add, zero_mul, zero_add]
    rw [testBit_val, pow_succ, Nat.mod_mul]
    ring

/-- C5: `sign_bit()`, the 8 `exponent_bits()` and the 23 `mantissa_bits()` partition the
32-bit IEEE-754 pattern exactly (1 + 8 + 23 = 32, no bit read twice or skipped):
recombining the sign bit, exponent bits and mantissa bits in order, most significant
first, reconstructs the exact original bit pattern, for every value. -/
theorem c5_bit_partition_roundtrip (x : F32Wrapper) :
    x.exponent_bits.length = F32_EXPONENT_BITS ∧
    x.mantissa_bits.length = F32_MANTISA_BITS ∧
    recombineBits x.sign_bit x.exponent_bits x.mantissa_bits = x.to_bits := by
  refine ⟨exponent_bits_length x, mantissa_bits_length x, ?_⟩
  have key := bits_foldl 32 x.to_bits
  rw [Nat.mod_eq_of_lt (to_bits_lt x)] at key
  rw [show ((List.range 32).map (fun i => x.to_bits.testBit (32 - 1 - i)))
      = [x.to_bits.testBit 31, x.to_bits.testBit 30, x.to_bits.testBit 29,
        x.to_bits.testBit 28, x.to_bits.testBit 27, x.to_bits.testBit 26,
        x.to_bits.testBit 25, x.to_bits.testBit 24, x.to_bits.testBit 23,
        x.to_bits.testBit 22, x.to_bits.testBit 21, x.to_bits.testBit 20,
        x.to_bits.testBit 19, x.to_bits.testBit 18, x.to_bits.testBit 17,
        x.to_bits.testBit 16, x.to_bits.testBit 15, x.to_bits.testBit 14,
        x.to_bits.testBit 13, x.to_bits.testBit 12, x.to_bits.testBit 11,
        x.to_bits.testBit 10, x.to_bits.testBit 9, x.to_bits.testBit 8,
        x.to_bits.testBit 7, x.to_bits.testBit 6, x.to_bits.testBit 5,
        x.to_bits.testBit 4, x.to_bits.testBit 3, x.to_bits.testBit 2,
        x.to_bits.testBit 1, x.to_bits.testBit 0] from rfl] at key
  rw [recombineBits, sign_bit_eq, exponent_bits_eq, mantissa_bits_eq]
  simp only [List.cons_append, List.nil_append]
  exact key

/-- C2: for every pair of values (NaN and infinities included), `eq` returns true
exactly when the single-precision difference `self.inner - other.inner` is a finite
value whose magnitude is at most the tolerance constant (the binary32 value of the
literal `0.00001`, namely 10995116/2^40). -/
theorem c2_equals_iff_abs_diff_le_tolerance (a b : F32Wrapper) :
    F32Wrapper.eq a b = true ↔
      isNanF32 (f32Sub a b) = false ∧ isInfF32 (f32Sub a b) = false ∧
        |toQ (f32Sub a b)| ≤ toQ F32_ERROR_TOLERANCE := by
  have htN : isNanF32 F32_ERROR_TOLERANCE = false := by decide
  have htI : isInfF32 F32_ERROR_TOLERANCE = false := by decide
  rw [F32Wrapper.eq, f32Le, isNan_abs, isInf_abs, sign_bit_abs, toQ_abs, htN, htI]
  by_cases hn : isNanF32 (f32Sub a b) = true
  · simp [hn]
  · simp only [Bool.not_eq_true] at hn
    by_cases hi : isInfF32 (f32Sub a b) = true
    · simp [hn, hi]
    · simp only [Bool.not_eq_true] at hi
      simp [hn, hi]

/-- C1 (code bug): at the input 42.0f32 (pattern 0x42280000, biased exponent field
132) the hash derivation computes `raw_exp = -94` and an initial scale of 2^-94,
while the claimed standard unsigned decoding of the exponent field minus the bias 127
gives 132 - 127 = 5: the loop runs over `f32::DIGITS` = 6 of the 8 exponent bits and
gives bit `i` of the most-significant-first sequence the weight 2^i. -/
theorem c1_raw_exp_diverges_from_standard_decode :
    raw_exp ⟨1109917696⟩ = -94 ∧
    specExponentValue ⟨1109917696⟩ = 132 ∧
    multiplicative_exponent ⟨1109917696⟩ = (2 : ℚ) ^ (-(94 : Int)) ∧
    raw_exp ⟨1109917696⟩ ≠ (specExponentValue ⟨1109917696⟩ : Int) - 127 := by
  refine ⟨by decide, by decide, by decide, by decide⟩

/-- C3 (counterexample): at positive infinity (pattern 0x7F800000) `eq` applied to the
value and itself returns false (the difference inf - inf is NaN), so equality is not
reflexive over the whole domain of 32-bit patterns. -/
theorem c3_equals_not_reflexive_at_infinity :
    F32Wrapper.eq ⟨2139095040⟩ ⟨2139095040⟩ = false := by decide

/-- C3 (amended): for every value whose biased exponent field is not 255 — that is,
every finite value, NaN and the infinities excluded — `eq` applied to the value and
itself returns true. -/
theorem c3_equals_reflexive_on_finite (a : F32Wrapper) (h : expField a ≠ 255) :
    F32Wrapper.eq a a = true := by
  have hn : isNanF32 a = false := by simp [isNanF32, h]
  have hi : isInfF32 a = false := by simp [isInfF32, h]
  have hsub : f32Sub a a = ⟨0⟩ := by
    by_cases hz : isZeroF32 a = true
    · simp [f32Sub, hn, hi, hz, zeroF32]
    · simp [f32Sub, hn, hi, hz, sub_self, roundF32]
  rw [F32Wrapper.eq, hsub]
  decide

/-- Witness for C3 (amended): the hypothesis holds at 42.0f32 and the theorem applies. -/
theorem c3_equals_reflexive_on_finite_witness :
    expField ⟨1109917696⟩ ≠ 255 ∧ F32Wrapper.eq ⟨1109917696⟩ ⟨1109917696⟩ = true :=
  ⟨by decide, c3_equals_reflexive_on_finite ⟨1109917696⟩ (by decide)⟩

/-- C4: `eq` on +0.0 (pattern 0) and -0.0 (pattern 0x80000000) returns true, both
zeros skip the sign-bit contribution in the hash (the optional sign component is
`none` for both), and the full data fed to the hasher is identical, so the two hash
codes are equal. -/
theorem c4_zero_identity :
    F32Wrapper.eq ⟨0⟩ ⟨2147483648⟩ = true ∧
    (hashData ⟨0⟩).1 = none ∧ (hashData ⟨2147483648⟩).1 = none ∧
    hashData ⟨0⟩ = hashData ⟨2147483648⟩ := by
  refine ⟨by decide, by decide, by decide, by decide⟩

/-- C6 (counterexample): the claimed inequality fails for the base value 2^30
(pattern 0x4E800000): adding twice the tolerance in single precision rounds back to
the base value itself, so `eq` returns true where the claim demands false. -/
theorem c6_far_value_inequality_fails_at_large_base :
    F32Wrapper.eq ⟨1316880384⟩
      (f32Add ⟨1316880384⟩ (f32Mul F32_ERROR_TOLERANCE ⟨1073741824⟩)) = true := by
  decide

/-- C6 (amended): for the base values the repository exercises, v = 42.0 and
v = -42.0, `eq` on v and v ± 2·tolerance (both computed in single precision, as
`v + F32_ERROR_TOLERANCE * 2.0` and `v - F32_ERROR_TOLERANCE * 2.0`) returns false. -/
theorem c6_far_value_inequality_at_42 :
    F32Wrapper.eq ⟨1109917696⟩
      (f32Add ⟨1109917696⟩ (f32Mul F32_ERROR_TOLERANCE ⟨1073741824⟩)) = false ∧
    F32Wrapper.eq ⟨1109917696⟩
      (f32Sub ⟨1109917696⟩ (f32Mul F32_ERROR_TOLERANCE ⟨1073741824⟩)) = false ∧
    F32Wrapper.eq ⟨3257401344⟩
      (f32Add ⟨3257401344⟩ (f32Mul F32_ERROR_TOLERANCE ⟨1073741824⟩)) = false ∧
    F32Wrapper.eq ⟨3257401344⟩
      (f32Sub ⟨3257401344⟩ (f32Mul F32_ERROR_TOLERANCE ⟨1073741824⟩)) = false := by
  refine ⟨by decide, by decide, by decide, by decide⟩

/-- C7: inserting 42.0 and 42.0 + F32_ERROR_TOLERANCE * 2.0 (single precision) into an
empty set governed by the equals/hash contract yields size 2, and inserting 42.0 and
42.0 + F32_ERROR_TOLERANCE / 2.0 into an empty (cleared) set yields size 1 —
the literal scenario of the demonstration program. -/
theorem c7_demo_set_sizes :
    (hsInsert (hsInsert [] ⟨1109917696⟩)
      (f32Add ⟨1109917696⟩ (f32Mul F32_ERROR_TOLERANCE ⟨1073741824⟩))).length = 2 ∧
    (hsInsert (hsInsert [] ⟨1109917696⟩)
      (f32Add ⟨1109917696⟩ (f32Div F32_ERROR_TOLERANCE ⟨1073741824⟩))).length = 1 := by
  refine ⟨by decide, by decide⟩

/-- C8: no operation can fail on any 32-bit pattern: every array index the hash
implementation reads is in bounds (the only panic sites in the component), and the
binary rendering always produces the full 34-character string `0b` + 32 bits.
All other operations (`new`, `eq`, `sign_bit`, `exponent_bits`, `mantissa_bits`)
are total functions of the pattern by construction, NaN and infinities included. -/
theorem c8_operations_total (x : F32Wrapper) :
    hashOutOfBounds x = false ∧ x.to_bin_str.length = 34 := by
  constructor
  · rw [hashOutOfBounds, exponent_bits_length, mantissa_bits_length,
      final_mantissa_length]
    decide
  · rw [F32Wrapper.to_bin_str]
    simp [String.length, exponent_bits_length, mantissa_bits_length]

/-- C9: the data fed to the hash accumulator is a deterministic function of the
32-bit pattern of the wrapped value: equal patterns give identical fed data, hence
equal hash codes. -/
theorem c9_hash_deterministic_on_bits (a b : F32Wrapper)
    (h : a.to_bits = b.to_bits) : hashData a = hashData b := by
  simp only [hashData, isZeroF32, expField, mantField, F32Wrapper.sign_bit,
    F32Wrapper.exponent_bits, F32Wrapper.mantissa_bits, final_mantissa,
    multiplicative_exponent, raw_exp, h]

/-- Witness for C9: two wrappers with the same 32-bit pattern (the second has the
pattern of 42.0 plus 2^32, which truncates to the same `u32`) hash identically. -/
theorem c9_hash_deterministic_on_bits_witness :
    F32Wrapper.to_bits ⟨1109917696⟩ = F32Wrapper.to_bits ⟨5404884992⟩ ∧
    hashData ⟨1109917696⟩ = hashData ⟨5404884992⟩ :=
  ⟨by decide, c9_hash_deterministic_on_bits ⟨1109917696⟩ ⟨5404884992⟩ (by decide)⟩

theorem exponent_bits_of_132 (x : F32Wrapper) (h : expField x = 132) :
    x.exponent_bits = [true, false, false, false, false, true, false, false] := by
  have ht := to_bits_lt x
  rw [expField] at h
  rw [exponent_bits_eq]
  simp only [Nat.testBit_to_div_mod, List.cons.injEq, decide_eq_true_eq,
    decide_eq_false_iff_not, and_true]
  omega

theorem raw_exp_of_132 (x : F32Wrapper) (h : expField x = 132) : raw_exp x = -94 := by
  rw [raw_exp, exponent_bits_of_132 x h]
  decide

/-- C10: any two values with sign bit 0 and biased exponent field 132 — that is, any
two values in the binade [32.0, 64.0) — feed identical data to the hash accumulator:
the reconstructed scale is 2^-94, below the tolerance, so all 23 mantissa bits are
zeroed for both, and sign and exponent contributions agree; hence equal hash codes
even for values much farther apart than the tolerance. -/
theorem c10_same_binade_same_hash (a b : F32Wrapper)
    (ha : expField a = 132) (hb : expField b = 132)
    (hsa : a.sign_bit = false) (hsb : b.sign_bit = false) :
    hashData a = hashData b := by
  have hlt : (2 : ℚ) ^ (-(94 : Int)) < toQ F32_ERROR_TOLERANCE := by decide
  have hpos : (0 : ℚ) ≤ (2 : ℚ) ^ (-(94 : Int)) := by positivity
  have hfa : final_mantissa a = List.replicate 23 false := by
    rw [final_mantissa, multiplicative_exponent, raw_exp_of_132 a ha,
      finalMantissaGo_all_false _ _ _ hpos hlt, mantissa_bits_length]
  have hfb : final_mantissa b = List.replicate 23 false := by
    rw [final_mantissa, multiplicative_exponent, raw_exp_of_132 b hb,
      finalMantissaGo_all_false _ _ _ hpos hlt, mantissa_bits_length]
  have hza : isZeroF32 a = false := by simp [isZeroF32, ha]
  have hzb : isZeroF32 b = false := by simp [isZeroF32, hb]
  rw [hashData, hashData, hza, hzb, hsa, hsb, hfa, hfb,
    exponent_bits_of_132 a ha, exponent_bits_of_132 b hb]

/-- Witness for C10: 32.0 (pattern 0x42000000) and 63.0 (pattern 0x427C0000) differ
by 31.0, far beyond the tolerance, yet satisfy the hypotheses and hash identically. -/
theorem c10_same_binade_same_hash_witness :
    expField ⟨1107296256⟩ = 132 ∧ expField ⟨1115422720⟩ = 132 ∧
    F32Wrapper.sign_bit ⟨1107296256⟩ = false ∧
    F32Wrapper.sign_bit ⟨1115422720⟩ = false ∧
    hashData ⟨1107296256⟩ = hashData ⟨1115422720⟩ :=
  ⟨by decide, by decide, by decide, by decide,
    c10_same_binade_same_hash ⟨1107296256⟩ ⟨1115422720⟩
      (by decide) (by decide) (by decide) (by decide)⟩
